import Mathlib

/-!
Verification development for the multi-MCP-tool repository
(`mcp-client/mcp_client.py` and `mcp-client/main.py`).

The Python code is shallowly embedded as executable Lean definitions:

* `Message`, `ToolCallReq`, `Content` model the message dictionaries built by
  `MCPClient.process_query` (optional keys become `Option` fields).
* `ClientState` models the mutable fields of an `MCPClient` object plus the
  contents of the `conversations/` directory (field `fs`, a path-keyed map),
  so that `log_conversation` / `load_conversation` are pure state transformers.
* `processQuery` / `loop` / `execTools` embed `MCPClient.process_query`.
  The model endpoint (`self.llm.chat.completions.create`) is modelled by a
  finite script of responses (`Except.error` entries are transport failures
  raised by the OpenAI SDK; an exhausted script is likewise a transport
  failure), `json.loads` by an abstract parser argument, and
  `self.session.call_tool` (plus the stringification of its result) by an
  abstract executor argument.  `loop` additionally records, per model call,
  the exact `messages` argument handed to `call_llm`, so theorems can speak
  about what is sent to the model endpoint.
* `AppState`, `queryEndpoint`, `handle_file_upload`, `delete_conversation_post`
  embed the FastAPI handlers of `main.py` (the in-memory
  `app.state.conversations` dict becomes an association list).
-/

/-- One item of a structured (list-valued) message content.  The only such
item the repository builds is the file-upload payload dict
`dict(type := "tool_result", content := [dict(text := t)])`; it is a plain
dict, so `log_conversation`'s duck-typed serialization passes it through
unchanged. -/
inductive ContentItem where
  | toolResult (text : String)
  deriving DecidableEq, Repr

/-- The `content` value of a message dict: a plain string, a list of content
items, or Python `None` (the content of an assistant message that only
carries tool calls). -/
inductive Content where
  | str (s : String)
  | items (l : List ContentItem)
  | null
  deriving DecidableEq, Repr

/-- One tool-call request dict as built in `process_query`
(`mcp_client.py` lines 162-169): `id`, `type := "function"` (a constant,
omitted here) and `function.name` / `function.arguments`. -/
structure ToolCallReq where
  id : String
  name : String
  arguments : String
  deriving DecidableEq, Repr

/-- One message dict of the transcript.  `tool_call_id` is present only on
tool-role messages, `tool_calls` only on assistant messages that request
tools; absent dict keys are `none`. -/
structure Message where
  role : String
  content : Content
  tool_call_id : Option String
  tool_calls : Option (List ToolCallReq)
  deriving DecidableEq, Repr

/-- One response of the model endpoint (`response.choices[0].message`):
optional text content and a (possibly empty) list of tool calls.  An empty
list models both `None` and `[]`, which are equally falsy in the
`if assistant_message.tool_calls:` test. -/
structure ModelResponse where
  content : Option String
  tool_calls : List ToolCallReq
  deriving DecidableEq, Repr

/-- A message as written to disk by `log_conversation`: only the `role` and
`content` keys are copied into `serializable_message`. -/
structure PersistedMessage where
  role : String
  content : Content
  deriving DecidableEq, Repr

/-- The JSON document `log_conversation` writes:
`data_to_save = dict(id, created_at, messages)`. -/
structure SavedRecord where
  id : String
  created_at : String
  messages : List PersistedMessage
  deriving DecidableEq, Repr

/-- Parsed tool arguments (the dict produced by `json.loads`), kept abstract
as a flat key/value list. -/
abbrev Args := List (String × String)

/-- Lookup in a string-keyed map (Python dict / directory of files). -/
def lookupA {α : Type} : List (String × α) → String → Option α
  | [], _ => none
  | (k', v) :: rest, k => if k' = k then some v else lookupA rest k

/-- Update a string-keyed map, replacing the binding if the key exists and
appending it otherwise (Python dict assignment / overwriting a file). -/
def setA {α : Type} : List (String × α) → String → α → List (String × α)
  | [], k, v => [(k, v)]
  | (k', v') :: rest, k, v =>
      if k' = k then (k, v) :: rest else (k', v') :: setA rest k v

/-- Remove a key from a string-keyed map (Python `del`). -/
def eraseA {α : Type} : List (String × α) → String → List (String × α)
  | [], _ => []
  | (k', v') :: rest, k =>
      if k' = k then eraseA rest k else (k', v') :: eraseA rest k

theorem lookupA_setA_self {α : Type} (m : List (String × α)) (k : String) (v : α) :
    lookupA (setA m k v) k = some v := by
  induction m with
  | nil => simp [setA, lookupA]
  | cons p rest ih =>
      by_cases h : p.1 = k
      · simp [setA, h, lookupA]
      · simp [setA, h, lookupA, ih]

theorem lookupA_setA_other {α : Type} (m : List (String × α)) (k k' : String) (v : α)
    (h : k' ≠ k) : lookupA (setA m k v) k' = lookupA m k' := by
  induction m with
  | nil => simp [setA, lookupA, Ne.symm h]
  | cons p rest ih =>
      by_cases hp : p.1 = k
      · subst hp
        simp [setA, lookupA, Ne.symm h]
      · simp [setA, hp, lookupA, ih]

theorem setA_setA_self {α : Type} (m : List (String × α)) (k : String) (v : α) :
    setA (setA m k v) k v = setA m k v := by
  induction m with
  | nil => simp [setA]
  | cons p rest ih =>
      by_cases h : p.1 = k
      · simp [setA, h]
      · simp [setA, h, ih]

theorem lookupA_eraseA_self {α : Type} (m : List (String × α)) (k : String) :
    lookupA (eraseA m k) k = none := by
  induction m with
  | nil => simp [eraseA, lookupA]
  | cons p rest ih =>
      by_cases h : p.1 = k
      · simp [eraseA, h, ih]
      · simp [eraseA, h, lookupA, ih]

/-- Serialize one message exactly as `log_conversation` does: keep `role`,
keep string content as is, keep list content item by item (the items the
repository produces are plain dicts, which the duck-typed dispatch passes
through), and leave the initial `[]` in place for any other content
(in particular `None`).  All other keys (`tool_call_id`, `tool_calls`)
are dropped. -/
def serializeMessage (m : Message) : PersistedMessage :=
  { role := m.role
    content :=
      match m.content with
      | Content.str s => Content.str s
      | Content.items l => Content.items l
      | Content.null => Content.items [] }

/-- The state of one `MCPClient` object together with the durable
`conversations/` directory it writes to (`fs`, keyed by file path). -/
structure ClientState where
  conversation_id : String
  created_at : String
  messages : List Message
  tools : List String
  fs : List (String × SavedRecord)
  deriving DecidableEq, Repr

/-- Embeds `MCPClient.get_conversation_path`. -/
def getConversationPath (st : ClientState) : String :=
  "conversations/" ++ st.conversation_id ++ ".json"

/-- The record `log_conversation` writes for the current state. -/
def serializeRecord (st : ClientState) : SavedRecord :=
  { id := st.conversation_id
    created_at := st.created_at
    messages := st.messages.map serializeMessage }

/-- Embeds `MCPClient.log_conversation` (always called with
`self.messages`): overwrite the file at `get_conversation_path()` with the
serialized record. -/
def logConv (st : ClientState) : ClientState :=
  { st with fs := setA st.fs (getConversationPath st) (serializeRecord st) }

/-- A persisted message read back into memory: the JSON object on disk has
only `role` and `content` keys, so the reloaded dict has no `tool_call_id`
or `tool_calls`. -/
def persistedToMessage (pm : PersistedMessage) : Message :=
  { role := pm.role, content := pm.content, tool_call_id := none, tool_calls := none }

/-- Embeds `MCPClient.load_conversation`: set `self.conversation_id`, read
the file at the derived path (error if absent), and take `messages` and
`created_at` from it. -/
def load_conversation (cid : String) (st : ClientState) : Except String ClientState :=
  let st' := { st with conversation_id := cid }
  match lookupA st'.fs (getConversationPath st') with
  | none => Except.error ("Conversation " ++ cid ++ " not found.")
  | some data =>
      Except.ok { st' with
        messages := data.messages.map persistedToMessage
        created_at := data.created_at }

/-- The fixed system prompt of `process_query` (`mcp_client.py`
lines 124-135).  Its exact text is irrelevant to every claim; only the
message's role matters. -/
def systemPrompt : String :=
  "Process a query using OpenAI and available tools, returning all messages at the end; "
  ++ "you are an expert AI assistant and QA engineer assisting the user with questions, "
  ++ "information and detailed test cases, with access to tools for uploaded files, Jira and GitLab."

/-- The `system_message` dict built in `process_query` (line 143). -/
def systemMessage : Message :=
  { role := "system", content := Content.str systemPrompt
    tool_call_id := none, tool_calls := none }

/-- The `user_message` dict built in `process_query` (line 142). -/
def mkUser (q : String) : Message :=
  { role := "user", content := Content.str q, tool_call_id := none, tool_calls := none }

/-- Assistant content as stored in the tool-calls branch: Python keeps
`assistant_message.content` unchanged, which may be `None`. -/
def contentOfOpt : Option String → Content
  | none => Content.null
  | some s => Content.str s

/-- One tool call executed as in `process_query` lines 178-216: parse the
arguments (`json.loads`, modelled by `parse`; a parse failure degrades to
the empty dict), invoke the tool (`session.call_tool` plus the
stringification of its result, modelled by `toolExec`), and build either
the result message or the `Tool execution failed: ...` error message, both
carrying the request's `tool_call_id`. -/
def toolReply (toolExec : String → Args → Except String String)
    (parse : String → Option Args) (tc : ToolCallReq) : Message :=
  let toolArgs := (parse tc.arguments).getD []
  match toolExec tc.name toolArgs with
  | Except.ok result =>
      { role := "tool", content := Content.str result
        tool_call_id := some tc.id, tool_calls := none }
  | Except.error e =>
      { role := "tool", content := Content.str ("Tool execution failed: " ++ e)
        tool_call_id := some tc.id, tool_calls := none }

/-- The `for tool_call in assistant_message.tool_calls` loop of
`process_query`: each reply is appended to `self.messages` (with a
`log_conversation` save after every append) and to the local `messages`
list. -/
def execTools (toolExec : String → Args → Except String String)
    (parse : String → Option Args) :
    List ToolCallReq → ClientState → List Message → ClientState × List Message
  | [], st, lm => (st, lm)
  | tc :: tcs, st, lm =>
      let tmsg := toolReply toolExec parse tc
      execTools toolExec parse tcs
        (logConv { st with messages := st.messages ++ [tmsg] })
        (lm ++ [tmsg])

/-- The assistant message dict of the plain-text branch of `process_query`
(lines 219-222): `content or ""`, no tool keys. -/
def assistantTextMsg (resp : ModelResponse) : Message :=
  { role := "assistant", content := Content.str (resp.content.getD "")
    tool_call_id := none, tool_calls := none }

/-- The assistant message dict of the tool-calls branch of `process_query`
(lines 158-172): the content as returned (possibly `None`) plus the full
ordered list of tool-call requests. -/
def assistantToolMsg (resp : ModelResponse) : Message :=
  { role := "assistant", content := contentOfOpt resp.content
    tool_call_id := none, tool_calls := some resp.tool_calls }

/-- The `while True` loop of `process_query`.  Arguments: the remaining
model-endpoint script, the client state, the local `messages` list, and the
list of requests sent to the model so far.  Each iteration first records
the exact `messages` argument of `call_llm` (which is `self.messages`),
then consumes one script entry: a transport failure (or an exhausted
script) raises `Failed to call LLM: ...` as in `call_llm`; a response with
tool calls appends the assistant message and all tool replies and loops; a
plain response appends the assistant text message and returns the local
list.  The result is `(outcome, final client state, request trace)` — on a
Python exception the object state still holds all mutations made so far,
which the second component models. -/
def loop (toolExec : String → Args → Except String String)
    (parse : String → Option Args) :
    List (Except String ModelResponse) → ClientState → List Message →
      List (List Message) →
      Except String (List Message) × ClientState × List (List Message)
  | [], st, _lm, reqs =>
      (Except.error "Failed to call LLM: connection error", st, reqs ++ [st.messages])
  | Except.error e :: _, st, _lm, reqs =>
      (Except.error ("Failed to call LLM: " ++ e), st, reqs ++ [st.messages])
  | Except.ok resp :: rest, st, lm, reqs =>
      if resp.tool_calls.isEmpty then
        (Except.ok (lm ++ [assistantTextMsg resp]),
         logConv { st with messages := st.messages ++ [assistantTextMsg resp] },
         reqs ++ [st.messages])
      else
        let r := execTools toolExec parse resp.tool_calls
          (logConv { st with messages := st.messages ++ [assistantToolMsg resp] })
          (lm ++ [assistantToolMsg resp])
        loop toolExec parse rest r.1 r.2 (reqs ++ [st.messages])

/-- Embeds `MCPClient.process_query`: append the user message to
`self.messages`, save, initialize the local list as
`[system_message, user_message]`, and run the loop. -/
def processQuery (toolExec : String → Args → Except String String)
    (parse : String → Option Args)
    (script : List (Except String ModelResponse)) (query : String)
    (st : ClientState) :
    Except String (List Message) × ClientState × List (List Message) :=
  let userMsg := mkUser query
  let st' := logConv { st with messages := st.messages ++ [userMsg] }
  loop toolExec parse script st' [systemMessage, userMsg] []

/-- The HTTP layer's state (`main.py`): the one shared `MCPClient` created
at startup and the in-memory `app.state.conversations` dict. -/
structure AppState where
  client : ClientState
  conversations : List (String × List Message)
  deriving DecidableEq, Repr

/-- Embeds the `/query` handler `process_query` of `main.py`: resolve the
conversation id (empty means a fresh uuid, modelled by `freshId`), point
`client.messages` at the stored transcript or `[]`, run the turn, and on
success store the updated messages and answer 200; a raised exception
becomes a 500 response with nothing stored (though the shared client keeps
its mutated state). -/
def queryEndpoint (toolExec : String → Args → Except String String)
    (parse : String → Option Args)
    (script : List (Except String ModelResponse))
    (q cidParam freshId : String) (app : AppState) :
    Nat × Option (List Message × String) × AppState :=
  let convoId := if cidParam = "" then freshId else cidParam
  let client := { app.client with messages := (lookupA app.conversations convoId).getD [] }
  let r := processQuery toolExec parse script q client
  match r.1 with
  | Except.ok msgs =>
      (200, some (msgs, convoId),
       { client := r.2.1, conversations := setA app.conversations convoId r.2.1.messages })
  | Except.error _ => (500, none, { client := r.2.1, conversations := app.conversations })

/-- Embeds the `/conversations/delete` handler `delete_conversation_post`
of `main.py`: delete the id if present (200), otherwise raise
`HTTPException(404, "Conversation not found")`. -/
def delete_conversation_post (app : AppState) (convoId : String) : Nat × AppState :=
  match lookupA app.conversations convoId with
  | some _ => (200, { app with conversations := eraseA app.conversations convoId })
  | none => (404, app)

/-- Embeds the `/file` handler `handle_file_upload` of `main.py`.
`callToolResult` is the outcome of `client.call_tool("read_uploaded_file",
args)` followed by `json.dumps(result)` (the serialized result text); an
exception anywhere in the body yields a 500 response.  On success the
handler appends two user-role messages — the upload notice and a message
whose list content embeds the tool result — to the identified conversation,
and never touches the model endpoint (no model script is even an input). -/
def handle_file_upload (callToolResult : Except String String)
    (filename cidParam freshId : String) (app : AppState) :
    Nat × Option (List Message × String) × AppState :=
  let convoId := if cidParam = "" then freshId else cidParam
  match callToolResult with
  | Except.error _ => (500, none, app)
  | Except.ok result =>
      let msgs : List Message :=
        [{ role := "user", content := Content.str ("📎 Uploaded file: `" ++ filename ++ "`")
           tool_call_id := none, tool_calls := none },
         { role := "user", content := Content.items [ContentItem.toolResult result]
           tool_call_id := none, tool_calls := none }]
      let updated := (lookupA app.conversations convoId).getD [] ++ msgs
      (200, some (updated, convoId),
       { app with conversations := setA app.conversations convoId updated })

/-- The model-API ordering contract checked left to right: `pending` is the
list of tool-call requests of the nearest preceding assistant message that
are not yet answered.  A tool-role message must answer exactly the next
pending request; any other message is legal only when nothing is pending,
and an assistant message opens its own requests as the new pending list. -/
def wfAux : List ToolCallReq → List Message → Bool
  | pending, [] => pending.isEmpty
  | tc :: tcs, m :: rest =>
      (m.role == "tool") && (m.tool_call_id == some tc.id) && wfAux tcs rest
  | [], m :: rest =>
      if m.role == "tool" then false
      else wfAux (if m.role == "assistant" then m.tool_calls.getD [] else []) rest

/-- A transcript satisfies the ordering invariant when the scan starting
with no pending requests succeeds. -/
def transcriptOK (msgs : List Message) : Bool := wfAux [] msgs

/-- The durable file at the client's own path holds exactly the
serialization of the in-memory messages. -/
def persistSynced (st : ClientState) : Prop :=
  lookupA st.fs (getConversationPath st) = some (serializeRecord st)

/-- The newest in-memory message is a user or tool message (no dangling
assistant message awaiting its model call's completion). -/
def lastRoleUserOrTool (st : ClientState) : Prop :=
  ∃ m : Message, st.messages.getLast? = some m ∧ (m.role = "user" ∨ m.role = "tool")

@[simp] theorem logConv_messages (st : ClientState) : (logConv st).messages = st.messages := rfl

@[simp] theorem logConv_cid (st : ClientState) :
    (logConv st).conversation_id = st.conversation_id := rfl

@[simp] theorem logConv_created (st : ClientState) :
    (logConv st).created_at = st.created_at := rfl

@[simp] theorem getConversationPath_logConv (st : ClientState) :
    getConversationPath (logConv st) = getConversationPath st := rfl

@[simp] theorem serializeRecord_logConv (st : ClientState) :
    serializeRecord (logConv st) = serializeRecord st := rfl

theorem logConv_synced (st : ClientState) : persistSynced (logConv st) := by
  simp [persistSynced, logConv, getConversationPath, serializeRecord, lookupA_setA_self]

theorem toolReply_role (te : String → Args → Except String String)
    (pa : String → Option Args) (tc : ToolCallReq) : (toolReply te pa tc).role = "tool" := by
  rcases h : te tc.name ((pa tc.arguments).getD []) with r | e <;> simp [toolReply, h]

theorem toolReply_id (te : String → Args → Except String String)
    (pa : String → Option Args) (tc : ToolCallReq) :
    (toolReply te pa tc).tool_call_id = some tc.id := by
  rcases h : te tc.name ((pa tc.arguments).getD []) with r | e <;> simp [toolReply, h]

theorem wfAux_append (l₂ : List Message) :
    ∀ (l₁ : List Message) (p : List ToolCallReq),
      wfAux p l₁ = true → wfAux [] l₂ = true → wfAux p (l₁ ++ l₂) = true := by
  intro l₁
  induction l₁ with
  | nil =>
      intro p h1 h2
      cases p with
      | nil => simpa using h2
      | cons a as => simp [wfAux] at h1
  | cons m rest ih =>
      intro p h1 h2
      cases p with
      | cons tc tcs =>
          simp only [wfAux, Bool.and_eq_true] at h1 ⊢
          exact ⟨⟨h1.1.1, h1.1.2⟩, ih tcs h1.2 h2⟩
      | nil =>
          by_cases hr : m.role == "tool"
          · simp [wfAux, hr] at h1
          · simp only [List.cons_append, wfAux, hr] at h1 ⊢
            simp only [Bool.false_eq_true, if_false] at h1 ⊢
            exact ih _ h1 h2

theorem wfAux_replies (te : String → Args → Except String String)
    (pa : String → Option Args) :
    ∀ (tcs : List ToolCallReq) (ys : List Message),
      wfAux [] ys = true →
      wfAux tcs (tcs.map (toolReply te pa) ++ ys) = true := by
  intro tcs
  induction tcs with
  | nil => intro ys h; simpa using h
  | cons tc tcs ih =>
      intro ys h
      simp only [List.map_cons, List.cons_append, wfAux, Bool.and_eq_true]
      refine ⟨⟨?_, ?_⟩, ih ys h⟩
      · simp [toolReply_role]
      · simp [toolReply_id]

theorem execTools_snd (te : String → Args → Except String String)
    (pa : String → Option Args) :
    ∀ (tcs : List ToolCallReq) (st : ClientState) (lm : List Message),
      (execTools te pa tcs st lm).2 = lm ++ tcs.map (toolReply te pa) := by
  intro tcs
  induction tcs with
  | nil => intro st lm; simp [execTools]
  | cons tc tcs ih => intro st lm; simp [execTools, ih]

theorem execTools_messages (te : String → Args → Except String String)
    (pa : String → Option Args) :
    ∀ (tcs : List ToolCallReq) (st : ClientState) (lm : List Message),
      (execTools te pa tcs st lm).1.messages = st.messages ++ tcs.map (toolReply te pa) := by
  intro tcs
  induction tcs with
  | nil => intro st lm; simp [execTools]
  | cons tc tcs ih => intro st lm; simp [execTools, ih, logConv]

theorem execTools_cid (te : String → Args → Except String String)
    (pa : String → Option Args) :
    ∀ (tcs : List ToolCallReq) (st : ClientState) (lm : List Message),
      (execTools te pa tcs st lm).1.conversation_id = st.conversation_id := by
  intro tcs
  induction tcs with
  | nil => intro st lm; simp [execTools]
  | cons tc tcs ih => intro st lm; simp [execTools, ih, logConv]

theorem execTools_fs_other (te : String → Args → Except String String)
    (pa : String → Option Args) :
    ∀ (tcs : List ToolCallReq) (st : ClientState) (lm : List Message) (p : String),
      p ≠ getConversationPath st →
      lookupA (execTools te pa tcs st lm).1.fs p = lookupA st.fs p := by
  intro tcs
  induction tcs with
  | nil => intro st lm p _; simp [execTools]
  | cons tc tcs ih =>
      intro st lm p hp
      have hpath : getConversationPath
          (logConv { st with messages := st.messages ++ [toolReply te pa tc] }) =
          getConversationPath st := rfl
      rw [show execTools te pa (tc :: tcs) st lm =
        execTools te pa tcs
          (logConv { st with messages := st.messages ++ [toolReply te pa tc] })
          (lm ++ [toolReply te pa tc]) from rfl]
      rw [ih _ _ p (by rw [hpath]; exact hp)]
      simp only [logConv]
      exact lookupA_setA_other _ _ _ _ hp

theorem execTools_synced (te : String → Args → Except String String)
    (pa : String → Option Args) :
    ∀ (tcs : List ToolCallReq) (st : ClientState) (lm : List Message),
      persistSynced st → persistSynced (execTools te pa tcs st lm).1 := by
  intro tcs
  induction tcs with
  | nil => intro st lm h; simpa [execTools] using h
  | cons tc tcs ih =>
      intro st lm _
      exact ih _ _ (logConv_synced _)

theorem execTools_last (te : String → Args → Except String String)
    (pa : String → Option Args) :
    ∀ (tcs : List ToolCallReq) (st : ClientState) (lm : List Message),
      tcs ≠ [] →
      ∃ tm : Message,
        (execTools te pa tcs st lm).1.messages.getLast? = some tm ∧ tm.role = "tool" := by
  intro tcs
  induction tcs with
  | nil => intro st lm h; exact absurd rfl h
  | cons tc tcs ih =>
      intro st lm _
      cases tcs with
      | nil =>
          refine ⟨toolReply te pa tc, ?_, toolReply_role te pa tc⟩
          simp [execTools, logConv]
      | cons tc2 tcs2 =>
          exact ih _ _ (by simp)


theorem loop_cid (te : String → Args → Except String String)
    (pa : String → Option Args) :
    ∀ (script : List (Except String ModelResponse)) (st : ClientState)
      (lm : List Message) (reqs : List (List Message)),
      ((loop te pa script st lm reqs).2.1).conversation_id = st.conversation_id := by
  intro script
  induction script with
  | nil => intro st lm reqs; simp [loop]
  | cons entry rest ih =>
      intro st lm reqs
      cases entry with
      | error e => simp [loop]
      | ok resp =>
          by_cases h : resp.tool_calls.isEmpty
          · simp [loop, h, logConv]
          · simp only [loop, h, if_false, Bool.false_eq_true]
            rw [ih, execTools_cid]
            rfl

theorem loop_messages_mono (te : String → Args → Except String String)
    (pa : String → Option Args) :
    ∀ (script : List (Except String ModelResponse)) (st : ClientState)
      (lm : List Message) (reqs : List (List Message)),
      ∃ d : List Message,
        ((loop te pa script st lm reqs).2.1).messages = st.messages ++ d := by
  intro script
  induction script with
  | nil => intro st lm reqs; exact ⟨[], by simp [loop]⟩
  | cons entry rest ih =>
      intro st lm reqs
      cases entry with
      | error e => exact ⟨[], by simp [loop]⟩
      | ok resp =>
          by_cases h : resp.tool_calls.isEmpty
          · exact ⟨[assistantTextMsg resp], by simp [loop, h, logConv]⟩
          · simp only [loop, h, if_false, Bool.false_eq_true]
            obtain ⟨d, hd⟩ := ih
              (execTools te pa resp.tool_calls
                (logConv { st with messages := st.messages ++ [assistantToolMsg resp] })
                (lm ++ [assistantToolMsg resp])).1
              (execTools te pa resp.tool_calls
                (logConv { st with messages := st.messages ++ [assistantToolMsg resp] })
                (lm ++ [assistantToolMsg resp])).2
              (reqs ++ [st.messages])
            rw [hd, execTools_messages]
            refine ⟨[assistantToolMsg resp] ++ List.map (toolReply te pa) resp.tool_calls ++ d, ?_⟩
            simp [logConv]

theorem loop_fs_other (te : String → Args → Except String String)
    (pa : String → Option Args) :
    ∀ (script : List (Except String ModelResponse)) (st : ClientState)
      (lm : List Message) (reqs : List (List Message)) (p : String),
      p ≠ getConversationPath st →
      lookupA ((loop te pa script st lm reqs).2.1).fs p = lookupA st.fs p := by
  intro script
  induction script with
  | nil => intro st lm reqs p _; simp [loop]
  | cons entry rest ih =>
      intro st lm reqs p hp
      cases entry with
      | error e => simp [loop]
      | ok resp =>
          by_cases h : resp.tool_calls.isEmpty
          · simp only [loop, h, if_true]
            simp only [logConv]
            exact lookupA_setA_other _ _ _ _ hp
          · simp only [loop, h, if_false, Bool.false_eq_true]
            have hmid : p ≠ getConversationPath
                (logConv { st with messages := st.messages ++ [assistantToolMsg resp] }) := hp
            have hafter : p ≠ getConversationPath
                (execTools te pa resp.tool_calls
                  (logConv { st with messages := st.messages ++ [assistantToolMsg resp] })
                  (lm ++ [assistantToolMsg resp])).1 := by
              unfold getConversationPath
              rw [execTools_cid]
              exact hp
            rw [ih _ _ _ p hafter, execTools_fs_other te pa _ _ _ p hmid]
            simp only [logConv]
            exact lookupA_setA_other _ _ _ _ hp

theorem loop_synced (te : String → Args → Except String String)
    (pa : String → Option Args) :
    ∀ (script : List (Except String ModelResponse)) (st : ClientState)
      (lm : List Message) (reqs : List (List Message)),
      persistSynced st → persistSynced ((loop te pa script st lm reqs).2.1) := by
  intro script
  induction script with
  | nil => intro st lm reqs h; simpa [loop] using h
  | cons entry rest ih =>
      intro st lm reqs h
      cases entry with
      | error e => simpa [loop] using h
      | ok resp =>
          by_cases hc : resp.tool_calls.isEmpty
          · simp only [loop, hc, if_true]
            exact logConv_synced _
          · simp only [loop, hc, if_false, Bool.false_eq_true]
            exact ih _ _ _ (execTools_synced _ _ _ _ _ (logConv_synced _))

theorem loop_err_msg (te : String → Args → Except String String)
    (pa : String → Option Args) :
    ∀ (script : List (Except String ModelResponse)) (st : ClientState)
      (lm : List Message) (reqs : List (List Message)) (em : String),
      (loop te pa script st lm reqs).1 = Except.error em →
      ∃ e : String, em = "Failed to call LLM: " ++ e := by
  intro script
  induction script with
  | nil =>
      intro st lm reqs em h
      simp only [loop, Except.error.injEq] at h
      exact ⟨"connection error", h.symm⟩
  | cons entry rest ih =>
      intro st lm reqs em h
      cases entry with
      | error e =>
          simp only [loop, Except.error.injEq] at h
          exact ⟨e, h.symm⟩
      | ok resp =>
          by_cases hc : resp.tool_calls.isEmpty
          · simp [loop, hc] at h
          · simp only [loop, hc, if_false, Bool.false_eq_true] at h
            exact ih _ _ _ _ h

theorem loop_lastRole (te : String → Args → Except String String)
    (pa : String → Option Args) :
    ∀ (script : List (Except String ModelResponse)) (st : ClientState)
      (lm : List Message) (reqs : List (List Message)) (em : String),
      lastRoleUserOrTool st →
      (loop te pa script st lm reqs).1 = Except.error em →
      lastRoleUserOrTool ((loop te pa script st lm reqs).2.1) := by
  intro script
  induction script with
  | nil => intro st lm reqs em h _; simpa [loop] using h
  | cons entry rest ih =>
      intro st lm reqs em h herr
      cases entry with
      | error e => simpa [loop] using h
      | ok resp =>
          by_cases hc : resp.tool_calls.isEmpty
          · simp [loop, hc] at herr
          · simp only [loop, hc, if_false, Bool.false_eq_true] at herr ⊢
            refine ih _ _ _ em ?_ herr
            obtain ⟨tm, htm, hrole⟩ := execTools_last te pa resp.tool_calls
              (logConv { st with messages := st.messages ++ [assistantToolMsg resp] })
              (lm ++ [assistantToolMsg resp])
              (by intro hnil; exact hc (by simp [hnil]))
            exact ⟨tm, htm, Or.inr hrole⟩

theorem loop_trace_len (te : String → Args → Except String String)
    (pa : String → Option Args) :
    ∀ (script : List (Except String ModelResponse)) (st : ClientState)
      (lm : List Message) (reqs : List (List Message)),
      reqs.length + 1 ≤ (loop te pa script st lm reqs).2.2.length := by
  intro script
  induction script with
  | nil => intro st lm reqs; simp [loop]
  | cons entry rest ih =>
      intro st lm reqs
      cases entry with
      | error e => simp [loop]
      | ok resp =>
          by_cases hc : resp.tool_calls.isEmpty
          · simp [loop, hc]
          · simp only [loop, hc, if_false, Bool.false_eq_true]
            have h2 := ih
              (execTools te pa resp.tool_calls
                (logConv { st with messages := st.messages ++ [assistantToolMsg resp] })
                (lm ++ [assistantToolMsg resp])).1
              (execTools te pa resp.tool_calls
                (logConv { st with messages := st.messages ++ [assistantToolMsg resp] })
                (lm ++ [assistantToolMsg resp])).2
              (reqs ++ [st.messages])
            simp only [List.length_append, List.length_cons, List.length_nil] at h2
            omega

theorem loop_wf (te : String → Args → Except String String)
    (pa : String → Option Args) :
    ∀ (script : List (Except String ModelResponse)) (st : ClientState)
      (lm : List Message) (reqs : List (List Message)) (ret : List Message),
      wfAux [] lm = true →
      (loop te pa script st lm reqs).1 = Except.ok ret →
      transcriptOK ret = true := by
  intro script
  induction script with
  | nil => intro st lm reqs ret _ h; simp [loop] at h
  | cons entry rest ih =>
      intro st lm reqs ret hwf h
      cases entry with
      | error e => simp [loop] at h
      | ok resp =>
          by_cases hc : resp.tool_calls.isEmpty
          · simp only [loop, hc, if_true, Except.ok.injEq] at h
            subst h
            unfold transcriptOK
            refine wfAux_append _ lm [] hwf ?_
            simp [wfAux, assistantTextMsg]
          · simp only [loop, hc, if_false, Bool.false_eq_true] at h
            refine ih _ _ _ ret ?_ h
            rw [execTools_snd]
            have hblock : wfAux []
                ([assistantToolMsg resp] ++ List.map (toolReply te pa) resp.tool_calls) = true := by
              simp only [List.cons_append, List.nil_append, wfAux, assistantToolMsg]
              simp only [show (("assistant" : String) == "tool") = false from rfl,
                show (("assistant" : String) == "assistant") = true from rfl,
                Bool.false_eq_true, if_false, if_true, Option.getD_some]
              have := wfAux_replies te pa resp.tool_calls [] (by simp [wfAux])
              simpa using this
            have := wfAux_append
              ([assistantToolMsg resp] ++ List.map (toolReply te pa) resp.tool_calls)
              lm [] hwf hblock
            simpa using this

theorem processQuery_synced (te : String → Args → Except String String)
    (pa : String → Option Args) (script : List (Except String ModelResponse))
    (q : String) (st : ClientState) :
    persistSynced ((processQuery te pa script q st).2.1) := by
  unfold processQuery
  exact loop_synced te pa script _ _ _ (logConv_synced _)

theorem processQuery_cid (te : String → Args → Except String String)
    (pa : String → Option Args) (script : List (Except String ModelResponse))
    (q : String) (st : ClientState) :
    ((processQuery te pa script q st).2.1).conversation_id = st.conversation_id := by
  unfold processQuery
  rw [loop_cid]
  rfl

theorem processQuery_fs_other (te : String → Args → Except String String)
    (pa : String → Option Args) (script : List (Except String ModelResponse))
    (q : String) (st : ClientState) (p : String)
    (hp : p ≠ getConversationPath st) :
    lookupA ((processQuery te pa script q st).2.1).fs p = lookupA st.fs p := by
  show lookupA ((loop te pa script
      (logConv { st with messages := st.messages ++ [mkUser q] })
      [systemMessage, mkUser q] []).2.1).fs p = lookupA st.fs p
  rw [loop_fs_other te pa script
    (logConv { st with messages := st.messages ++ [mkUser q] })
    [systemMessage, mkUser q] [] p hp]
  simp only [logConv]
  exact lookupA_setA_other _ _ _ _ hp

theorem processQuery_messages (te : String → Args → Except String String)
    (pa : String → Option Args) (script : List (Except String ModelResponse))
    (q : String) (st : ClientState) :
    ∃ d : List Message,
      ((processQuery te pa script q st).2.1).messages = st.messages ++ [mkUser q] ++ d := by
  show ∃ d : List Message,
    ((loop te pa script (logConv { st with messages := st.messages ++ [mkUser q] })
      [systemMessage, mkUser q] []).2.1).messages = st.messages ++ [mkUser q] ++ d
  obtain ⟨d, hd⟩ := loop_messages_mono te pa script
    (logConv { st with messages := st.messages ++ [mkUser q] })
    [systemMessage, mkUser q] []
  exact ⟨d, by simpa [logConv] using hd⟩

/-- A tool executor that always succeeds, for concrete runs. -/
def okExec : String → Args → Except String String := fun _ _ => Except.ok "issues"

/-- A tool executor that always raises, for concrete runs. -/
def errExec : String → Args → Except String String := fun _ _ => Except.error "boom"

/-- An argument parser on which `json.loads` always fails. -/
def noParse : String → Option Args := fun _ => none

/-- A freshly constructed client: empty history, no files on disk. -/
def freshClient : ClientState :=
  { conversation_id := "conv0", created_at := "t0", messages := [], tools := [], fs := [] }

/-- A concrete tool-call request whose arguments string is not JSON. -/
def tcEx : ToolCallReq := { id := "c1", name := "fetch_sprint_issues", arguments := "notjson" }

/-- C1: every transcript returned by a completed `process_query` turn
satisfies the ordering contract `transcriptOK`: each tool-role message
answers exactly the next pending request of the nearest preceding
assistant message, and an assistant message with N requests is followed by
exactly N tool-role messages, in request order, before any later
user/assistant message. -/
theorem c1_ordering_invariant (te : String → Args → Except String String)
    (pa : String → Option Args) (script : List (Except String ModelResponse))
    (q : String) (st : ClientState) (ret : List Message)
    (h : (processQuery te pa script q st).1 = Except.ok ret) :
    transcriptOK ret = true :=
  loop_wf te pa script (logConv { st with messages := st.messages ++ [mkUser q] })
    [systemMessage, mkUser q] [] ret
    (by simp [wfAux, systemMessage, mkUser]) h

/-- C1 witness transcript: user turn, one tool call answered in place,
then the final plain assistant message. -/
def c1Ret : List Message :=
  [systemMessage, mkUser "list",
   { role := "assistant", content := Content.null
     tool_call_id := none, tool_calls := some [tcEx] },
   { role := "tool", content := Content.str "issues"
     tool_call_id := some "c1", tool_calls := none },
   { role := "assistant", content := Content.str "done"
     tool_call_id := none, tool_calls := none }]

theorem c1_witness : transcriptOK c1Ret = true :=
  c1_ordering_invariant okExec noParse
    [Except.ok { content := none, tool_calls := [tcEx] },
     Except.ok { content := some "done", tool_calls := [] }]
    "list" freshClient c1Ret (by rfl)

/-- C3: when the model endpoint raises during a turn, `process_query`
propagates an error whose message is the `Failed to call LLM: ...` wrapper
of `call_llm` (the ModelUnavailable case); at that point the durable file
holds exactly the serialization of the in-memory transcript (the failing
call changed neither, so the persisted transcript is unchanged from before
the call), and the newest message is a user or tool message — no partial
assistant message was appended. -/
theorem c3_model_failure (te : String → Args → Except String String)
    (pa : String → Option Args) (script : List (Except String ModelResponse))
    (q : String) (st : ClientState) (em : String)
    (h : (processQuery te pa script q st).1 = Except.error em) :
    (∃ e : String, em = "Failed to call LLM: " ++ e) ∧
    persistSynced ((processQuery te pa script q st).2.1) ∧
    lastRoleUserOrTool ((processQuery te pa script q st).2.1) := by
  refine ⟨loop_err_msg te pa script
      (logConv { st with messages := st.messages ++ [mkUser q] })
      [systemMessage, mkUser q] [] em h,
    processQuery_synced te pa script q st, ?_⟩
  exact loop_lastRole te pa script
    (logConv { st with messages := st.messages ++ [mkUser q] })
    [systemMessage, mkUser q] [] em
    ⟨mkUser q, by simp [logConv], Or.inl rfl⟩ h

theorem c3_witness :
    (∃ e : String, "Failed to call LLM: timed out" = "Failed to call LLM: " ++ e) ∧
    persistSynced ((processQuery okExec noParse [Except.error "timed out"] "hi" freshClient).2.1) ∧
    lastRoleUserOrTool
      ((processQuery okExec noParse [Except.error "timed out"] "hi" freshClient).2.1) :=
  c3_model_failure okExec noParse [Except.error "timed out"] "hi" freshClient
    "Failed to call LLM: timed out" (by rfl)

/-- C4: the claim says each model request is the system instruction plus the
history; the code disagrees.  `call_llm` sends `self.messages`, but
`process_query` puts `system_message` only into the transient local list it
returns, never into `self.messages` — so on a fresh client the one request
sent to the model endpoint is exactly `[user]`, with no system-role message
at all. -/
theorem c4_system_prompt_not_sent :
    (processQuery okExec noParse [Except.ok { content := some "hello", tool_calls := [] }]
        "hi" freshClient).2.2 = [[mkUser "hi"]] ∧
    ((processQuery okExec noParse [Except.ok { content := some "hello", tool_calls := [] }]
        "hi" freshClient).2.2.map (List.map Message.role)) = [["user"]] := by
  constructor <;> rfl

/-- A conversation containing an assistant tool-call request and a
tool-role result, the fields the save path drops. -/
def c2Convo : List Message :=
  [mkUser "hi",
   { role := "assistant", content := Content.null
     tool_call_id := none, tool_calls := some [tcEx] },
   { role := "tool", content := Content.str "res"
     tool_call_id := some "c1", tool_calls := none }]

/-- A client holding `c2Convo` in memory with nothing saved yet. -/
def c2State : ClientState :=
  { conversation_id := "conv-c2", created_at := "tS", messages := c2Convo, tools := [], fs := [] }

/-- C2 counterexample: saving `c2Convo` and loading the same id does NOT
reproduce the in-memory sequence — `log_conversation` copies only `role`
and `content` into the durable record, so the tool message's
`tool_call_id`, the assistant message's `tool_calls` list, and the `None`
content (which becomes `[]`) are all lost on reload. -/
theorem c2_roundtrip_counterexample :
    (load_conversation "conv-c2" (logConv c2State)).toOption.map ClientState.messages ≠
      some c2State.messages := by
  decide

/-- C2 amended: saving the same conversation twice yields an identical
durable record, and loading after save reproduces each message's role and
content only (with `None` content becoming `[]`): the reloaded sequence is
the `role`/`content` projection of the in-memory one, so the exact
sequence round-trips only when no message carries `tool_call_id` or
`tool_calls`. -/
theorem c2_roundtrip_amended (st : ClientState) :
    (logConv (logConv st)).fs = (logConv st).fs ∧
    load_conversation st.conversation_id (logConv st) =
      Except.ok { logConv st with
        messages := st.messages.map (fun m => persistedToMessage (serializeMessage m)) } := by
  constructor
  · simp [logConv, setA_setA_self, getConversationPath, serializeRecord]
  · simp [load_conversation, logConv, getConversationPath, serializeRecord,
      lookupA_setA_self, List.map_map, Function.comp]

/-- C5: when the model response requests one tool call and the tool raises,
the loop appends a tool-role message carrying the same `tool_call_id` and
the human-readable `Tool execution failed: ...` string (it survives into
the final client state), and the loop does not abort: at least one further
model call is attempted (the request trace grows by at least two). -/
theorem c5_recovered_tool_failure (te : String → Args → Except String String)
    (pa : String → Option Args) (resp : ModelResponse) (tc : ToolCallReq) (e : String)
    (rest : List (Except String ModelResponse)) (st : ClientState)
    (lm : List Message) (reqs : List (List Message))
    (hcalls : resp.tool_calls = [tc])
    (herr : te tc.name ((pa tc.arguments).getD []) = Except.error e) :
    ({ role := "tool", content := Content.str ("Tool execution failed: " ++ e)
       tool_call_id := some tc.id, tool_calls := none } : Message)
      ∈ ((loop te pa (Except.ok resp :: rest) st lm reqs).2.1).messages ∧
    reqs.length + 2 ≤ (loop te pa (Except.ok resp :: rest) st lm reqs).2.2.length := by
  have hne : resp.tool_calls.isEmpty = false := by rw [hcalls]; rfl
  have hmsg : toolReply te pa tc =
      { role := "tool", content := Content.str ("Tool execution failed: " ++ e)
        tool_call_id := some tc.id, tool_calls := none } := by
    simp [toolReply, herr]
  simp only [loop, hne, Bool.false_eq_true, if_false]
  rw [hcalls]
  constructor
  · obtain ⟨d, hd⟩ := loop_messages_mono te pa rest
      (execTools te pa [tc]
        (logConv { st with messages := st.messages ++ [assistantToolMsg resp] })
        (lm ++ [assistantToolMsg resp])).1
      (execTools te pa [tc]
        (logConv { st with messages := st.messages ++ [assistantToolMsg resp] })
        (lm ++ [assistantToolMsg resp])).2
      (reqs ++ [st.messages])
    rw [hd, execTools_messages, ← hmsg]
    simp
  · have h2 := loop_trace_len te pa rest
      (execTools te pa [tc]
        (logConv { st with messages := st.messages ++ [assistantToolMsg resp] })
        (lm ++ [assistantToolMsg resp])).1
      (execTools te pa [tc]
        (logConv { st with messages := st.messages ++ [assistantToolMsg resp] })
        (lm ++ [assistantToolMsg resp])).2
      (reqs ++ [st.messages])
    simp only [List.length_append, List.length_cons, List.length_nil] at h2
    omega

theorem c5_witness :
    ({ role := "tool", content := Content.str ("Tool execution failed: " ++ "boom")
       tool_call_id := some "c1", tool_calls := none } : Message)
      ∈ ((loop errExec noParse
          [Except.ok { content := none, tool_calls := [tcEx] }]
          freshClient [] []).2.1).messages ∧
    2 ≤ (loop errExec noParse
          [Except.ok { content := none, tool_calls := [tcEx] }]
          freshClient [] []).2.2.length :=
  c5_recovered_tool_failure errExec noParse
    { content := none, tool_calls := [tcEx] } tcEx "boom" [] freshClient [] []
    (by rfl) (by rfl)

/-- C6: a tool-call request whose arguments string fails to parse is
executed exactly as if the arguments were the empty dict — the reply
message is the same as under a parser returning the empty dict, and the
tool loop still appends exactly that one reply rather than aborting. -/
theorem c6_badjson_empty_args (te : String → Args → Except String String)
    (pa : String → Option Args) (tc : ToolCallReq) (st : ClientState)
    (lm : List Message) (h : pa tc.arguments = none) :
    toolReply te pa tc = toolReply te (fun _ => some []) tc ∧
    (execTools te pa [tc] st lm).2 = lm ++ [toolReply te (fun _ => some []) tc] := by
  have h1 : toolReply te pa tc = toolReply te (fun _ => some []) tc := by
    simp [toolReply, h]
  refine ⟨h1, ?_⟩
  rw [execTools_snd]
  simp [h1]

theorem c6_witness :
    toolReply okExec noParse tcEx = toolReply okExec (fun _ => some []) tcEx ∧
    (execTools okExec noParse [tcEx] freshClient []).2 =
      [] ++ [toolReply okExec (fun _ => some []) tcEx] :=
  c6_badjson_empty_args okExec noParse tcEx freshClient [] (by rfl)

/-- C7 counterexample: deleting an id with no stored conversation is NOT a
successful no-op — the handler answers 404 (it raises
`HTTPException(404, "Conversation not found")`), so delete is not
idempotent on unknown ids. -/
theorem c7_delete_counterexample :
    (delete_conversation_post { client := freshClient, conversations := [] } "missing").1 = 404 ∧
    (delete_conversation_post { client := freshClient, conversations := [] } "missing").1 ≠ 200 := by
  constructor <;> decide

/-- C7 amended: deleting a stored conversation removes it and answers 200;
deleting an unknown id leaves the state unchanged and fails with a 404
Conversation-not-found error (so deletion is not idempotent). -/
theorem c7_delete_amended (app : AppState) (cid : String) :
    (lookupA app.conversations cid = none →
      delete_conversation_post app cid = (404, app)) ∧
    (∀ l : List Message, lookupA app.conversations cid = some l →
      (delete_conversation_post app cid).1 = 200 ∧
      lookupA ((delete_conversation_post app cid).2).conversations cid = none) := by
  constructor
  · intro h
    simp [delete_conversation_post, h]
  · intro l h
    simp [delete_conversation_post, h, lookupA_eraseA_self]

theorem c7_witness :
    (delete_conversation_post { client := freshClient, conversations := [("a", [])] } "a").1 = 200 ∧
    lookupA ((delete_conversation_post
        { client := freshClient, conversations := [("a", [])] } "a").2).conversations "a" = none :=
  (c7_delete_amended { client := freshClient, conversations := [("a", [])] } "a").2 [] (by rfl)

theorem queryEndpoint_client (te : String → Args → Except String String)
    (pa : String → Option Args) (script : List (Except String ModelResponse))
    (q cid fresh : String) (app : AppState) :
    ((queryEndpoint te pa script q cid fresh app).2.2).client =
      (processQuery te pa script q
        { app.client with messages :=
            (lookupA app.conversations (if cid = "" then fresh else cid)).getD [] }).2.1 := by
  simp only [queryEndpoint]
  cases h : (processQuery te pa script q
      { app.client with messages :=
          (lookupA app.conversations (if cid = "" then fresh else cid)).getD [] }).1 <;>
    simp [h]

/-- C8: running a turn for a non-empty conversation id unknown to the
in-memory session table never answers 404; the id is taken as supplied and,
when the turn succeeds, the transcript stored and returned under that id
begins with this turn's user message — i.e. it started from a fresh empty
history bound to the client-supplied id (lenient create-on-miss). -/
theorem c8_create_on_miss (te : String → Args → Except String String)
    (pa : String → Option Args) (script : List (Except String ModelResponse))
    (q cid fresh : String) (app : AppState)
    (hne : cid ≠ "") (hmiss : lookupA app.conversations cid = none) :
    (queryEndpoint te pa script q cid fresh app).1 ≠ 404 ∧
    ((queryEndpoint te pa script q cid fresh app).1 = 200 →
      ((queryEndpoint te pa script q cid fresh app).2.1.map Prod.snd = some cid) ∧
      ∃ l : List Message,
        lookupA ((queryEndpoint te pa script q cid fresh app).2.2).conversations cid = some l ∧
        l.head? = some (mkUser q)) := by
  have hid : (if cid = "" then fresh else cid) = cid := if_neg hne
  simp only [queryEndpoint, hid, hmiss, Option.getD_none]
  cases h : (processQuery te pa script q { app.client with messages := [] }).1 with
  | ok msgs =>
      simp only [h]
      refine ⟨by decide, fun _ => ⟨rfl, ?_⟩⟩
      refine ⟨(processQuery te pa script q { app.client with messages := [] }).2.1.messages,
        lookupA_setA_self _ _ _, ?_⟩
      obtain ⟨d, hd⟩ := processQuery_messages te pa script q
        { app.client with messages := [] }
      rw [hd]
      simp
  | error e =>
      simp only [h]
      exact ⟨by decide, fun hcontra => absurd hcontra (by decide)⟩

theorem c8_witness :
    (queryEndpoint okExec noParse [Except.ok { content := some "hello", tool_calls := [] }]
        "hi" "new-id" "fresh-uuid" { client := freshClient, conversations := [] }).1 ≠ 404 ∧
    ((queryEndpoint okExec noParse [Except.ok { content := some "hello", tool_calls := [] }]
        "hi" "new-id" "fresh-uuid" { client := freshClient, conversations := [] }).2.1.map
          Prod.snd = some "new-id") ∧
    ∃ l : List Message,
      lookupA ((queryEndpoint okExec noParse
          [Except.ok { content := some "hello", tool_calls := [] }]
          "hi" "new-id" "fresh-uuid"
          { client := freshClient, conversations := [] }).2.2).conversations "new-id" = some l ∧
      l.head? = some (mkUser "hi") := by
  have h := c8_create_on_miss okExec noParse
    [Except.ok { content := some "hello", tool_calls := [] }]
    "hi" "new-id" "fresh-uuid" { client := freshClient, conversations := [] }
    (by decide) (by rfl)
  exact ⟨h.1, h.2 (by rfl)⟩

/-- C9: one `/query` turn never changes the shared client's
`conversation_id` (it stays as fixed at construction, whatever conversation
id the HTTP request carried), the file at the path derived from that id is
written with the serialization of the final in-memory messages, and no
other path of the durable store is touched — so turns for distinct HTTP
conversation ids all overwrite the same single file. -/
theorem c9_single_file (te : String → Args → Except String String)
    (pa : String → Option Args) (script : List (Except String ModelResponse))
    (q cid fresh : String) (app : AppState) :
    ((queryEndpoint te pa script q cid fresh app).2.2).client.conversation_id =
      app.client.conversation_id ∧
    lookupA ((queryEndpoint te pa script q cid fresh app).2.2).client.fs
        (getConversationPath app.client) =
      some (serializeRecord ((queryEndpoint te pa script q cid fresh app).2.2).client) ∧
    (∀ p : String, p ≠ getConversationPath app.client →
      lookupA ((queryEndpoint te pa script q cid fresh app).2.2).client.fs p =
        lookupA app.client.fs p) := by
  have hcl := queryEndpoint_client te pa script q cid fresh app
  refine ⟨?_, ?_, ?_⟩
  · rw [hcl, processQuery_cid]
  · rw [hcl]
    have hpath : getConversationPath ((processQuery te pa script q
        { app.client with messages :=
            (lookupA app.conversations (if cid = "" then fresh else cid)).getD [] }).2.1) =
        getConversationPath app.client := by
      unfold getConversationPath
      rw [processQuery_cid]
    rw [← hpath]
    exact processQuery_synced te pa script q _
  · intro p hp
    rw [hcl, processQuery_fs_other te pa script q
      { app.client with messages :=
          (lookupA app.conversations (if cid = "" then fresh else cid)).getD [] } p hp]

theorem c9_witness :
    ((queryEndpoint okExec noParse [Except.ok { content := some "hello", tool_calls := [] }]
        "hi" "a" "f" { client := freshClient, conversations := [] }).2.2).client.conversation_id =
      ({ client := freshClient, conversations := [] } : AppState).client.conversation_id ∧
    lookupA ((queryEndpoint okExec noParse
        [Except.ok { content := some "hello", tool_calls := [] }]
        "hi" "a" "f" { client := freshClient, conversations := [] }).2.2).client.fs "other" =
      lookupA ({ client := freshClient, conversations := [] } : AppState).client.fs "other" := by
  have h := c9_single_file okExec noParse
    [Except.ok { content := some "hello", tool_calls := [] }]
    "hi" "a" "f" { client := freshClient, conversations := [] }
  exact ⟨h.1, h.2.2 "other" (by decide)⟩

/-- C10: a file-upload call whose tool invocation succeeds answers 200 and
appends exactly two messages to the identified conversation — the upload
notice and the embedded tool-result payload — both with role `user`, so no
assistant and no tool-role message is appended; the handler takes no model
script at all, so the model endpoint cannot be invoked.  A call whose tool
invocation raises answers 500 and appends nothing. -/
theorem c10_file_upload (res filename cid fresh : String) (app : AppState) :
    (handle_file_upload (Except.ok res) filename cid fresh app).1 = 200 ∧
    lookupA ((handle_file_upload (Except.ok res) filename cid fresh app).2.2).conversations
        (if cid = "" then fresh else cid) =
      some ((lookupA app.conversations (if cid = "" then fresh else cid)).getD [] ++
        [{ role := "user", content := Content.str ("📎 Uploaded file: `" ++ filename ++ "`"),
           tool_call_id := none, tool_calls := none },
         { role := "user", content := Content.items [ContentItem.toolResult res],
           tool_call_id := none, tool_calls := none }]) ∧
    ([({ role := "user", content := Content.str ("📎 Uploaded file: `" ++ filename ++ "`"),
         tool_call_id := none, tool_calls := none } : Message),
      { role := "user", content := Content.items [ContentItem.toolResult res],
        tool_call_id := none, tool_calls := none }].all
        (fun m => m.role == "user")) = true := by
  refine ⟨rfl, ?_, rfl⟩
  simp [handle_file_upload, lookupA_setA_self]
